import Mathlib

/-!
Verification development for the easygh secret/variable propagation tool.

The definitions below are shallow embeddings of the Go sources:

* `internal/github/secrets.go` — the sealed-box encryptor (`encryptSecret`,
  nonce derivation via BLAKE2b with native 24-byte output, NaCl `box.Seal`
  on top of Curve25519/XSalsa20/Poly1305) and `SetSecret`;
* `cmd/easygh/main.go` — the batch dispatcher (`processRepository`,
  `execute`, `maskSecret`);
* the GitHub client (`SetRepositoryVariable`, `SetEnvironmentVariable`,
  update-then-create upsert) and `internal/config` (`LoadConfig` token
  resolution).

Bytes are modelled as `Nat` (values < 256), byte strings as `List Nat`,
64-bit/32-bit machine words as `Nat` reduced `% 2 ^ 64` / `% 2 ^ 32` at
every operation that can overflow.  Randomness (`crypto/rand` feeding
`box.GenerateKey`) is modelled by passing the drawn ephemeral private key
as an explicit argument.  Remote GitHub API calls are modelled by boolean
oracles at the interface boundary described in the specification.
-/

set_option maxRecDepth 100000

namespace Gajin

/-! ## Byte and word utilities -/

/-- Little-endian encoding of `n` as exactly `k` bytes (higher bits dropped),
as `binary.LittleEndian` / libsodium serialisation do. -/
def encodeLE (k n : Nat) : List Nat :=
  (List.range k).map fun i => (n >>> (8 * i)) % 256

/-- Little-endian decoding of a byte string to a natural number. -/
def decodeLE (bs : List Nat) : Nat :=
  bs.foldr (fun b acc => b % 256 + 256 * acc) 0

/-- Right rotation of a 64-bit word. -/
def rotr64 (x n : Nat) : Nat :=
  ((x >>> n) ||| (x <<< (64 - n))) % 2 ^ 64

/-- Left rotation of a 32-bit word. -/
def rotl32 (x n : Nat) : Nat :=
  ((x <<< n) ||| (x >>> (32 - n))) % 2 ^ 32

/-! ## BLAKE2b (golang.org/x/crypto/blake2b, RFC 7693)

`blake2b.New(24, nil)` is BLAKE2b with the digest length 24 in the
parameter block; `blake2b.Sum512` is the same function with digest
length 64.  The digest length enters the initialisation of `h[0]`, so the
24-byte-native digest is not a prefix of the 64-byte digest. -/

/-- The BLAKE2b initialisation vector (the SHA-512 IV). -/
def blakeIV : List Nat :=
  [0x6a09e667f3bcc908, 0xbb67ae8584caa73b, 0x3c6ef372fe94f82b, 0xa54ff53a5f1d36f1,
   0x510e527fade682d1, 0x9b05688c2b3e6c1f, 0x1f83d9abfb41bd6b, 0x5be0cd19137e2179]

/-- The BLAKE2b message schedule. -/
def blakeSigma : List (List Nat) :=
  [[0, 1, 2, 3, 4, 5, 6, 7, 8, 9, 10, 11, 12, 13, 14, 15],
   [14, 10, 4, 8, 9, 15, 13, 6, 1, 12, 0, 2, 11, 7, 5, 3],
   [11, 8, 12, 0, 5, 2, 15, 13, 10, 14, 3, 6, 7, 1, 9, 4],
   [7, 9, 3, 1, 13, 12, 11, 14, 2, 6, 5, 10, 4, 0, 15, 8],
   [9, 0, 5, 7, 2, 4, 10, 15, 14, 1, 11, 12, 6, 8, 3, 13],
   [2, 12, 6, 10, 0, 11, 8, 3, 4, 13, 7, 5, 15, 14, 1, 9],
   [12, 5, 1, 15, 14, 13, 4, 10, 0, 7, 6, 3, 9, 2, 8, 11],
   [13, 11, 7, 14, 12, 1, 3, 9, 5, 0, 15, 4, 8, 6, 2, 10],
   [6, 15, 14, 9, 11, 3, 0, 8, 12, 2, 13, 7, 1, 4, 10, 5],
   [10, 2, 8, 4, 7, 6, 1, 5, 15, 11, 9, 14, 3, 12, 13, 0]]

/-- The BLAKE2b mixing function G on a 16-word state. -/
def blakeG (v : List Nat) (a b c d x y : Nat) : List Nat :=
  let va := (v.getD a 0 + v.getD b 0 + x) % 2 ^ 64
  let vd := rotr64 (v.getD d 0 ^^^ va) 32
  let vc := (v.getD c 0 + vd) % 2 ^ 64
  let vb := rotr64 (v.getD b 0 ^^^ vc) 24
  let va2 := (va + vb + y) % 2 ^ 64
  let vd2 := rotr64 (vd ^^^ va2) 16
  let vc2 := (vc + vd2) % 2 ^ 64
  let vb2 := rotr64 (vb ^^^ vc2) 63
  (((v.set a va2).set b vb2).set c vc2).set d vd2

/-- One BLAKE2b round with message words `m` and round index `r`. -/
def blakeRound (m v : List Nat) (r : Nat) : List Nat :=
  let s := blakeSigma.getD (r % 10) []
  let mi := fun i => m.getD (s.getD i 0) 0
  let v := blakeG v 0 4 8 12 (mi 0) (mi 1)
  let v := blakeG v 1 5 9 13 (mi 2) (mi 3)
  let v := blakeG v 2 6 10 14 (mi 4) (mi 5)
  let v := blakeG v 3 7 11 15 (mi 6) (mi 7)
  let v := blakeG v 0 5 10 15 (mi 8) (mi 9)
  let v := blakeG v 1 6 11 12 (mi 10) (mi 11)
  let v := blakeG v 2 7 8 13 (mi 12) (mi 13)
  blakeG v 3 4 9 14 (mi 14) (mi 15)

/-- The BLAKE2b compression function: state `h` (8 words), message block
`m` (16 words), byte counter `t`, final-block flag `last`. -/
def blakeCompress (h m : List Nat) (t : Nat) (last : Bool) : List Nat :=
  let v := h ++ blakeIV
  let v := v.set 12 (v.getD 12 0 ^^^ t % 2 ^ 64)
  let v := v.set 13 (v.getD 13 0 ^^^ (t >>> 64) % 2 ^ 64)
  let v := if last then v.set 14 (v.getD 14 0 ^^^ (2 ^ 64 - 1)) else v
  let v := (List.range 12).foldl (blakeRound m) v
  (List.range 8).map fun i => h.getD i 0 ^^^ v.getD i 0 ^^^ v.getD (i + 8) 0

/-- The sixteen little-endian 64-bit message words of a (≤128-byte) block,
zero-padded. -/
def blakeWords (block : List Nat) : List Nat :=
  (List.range 16).map fun i => decodeLE ((block.drop (8 * i)).take 8)

/-- Unkeyed BLAKE2b with digest length `outlen` bytes.  The digest length
is XORed into `h[0]` via the parameter block (`0x01010000 ^^^ outlen`),
which is what distinguishes `blake2b.New(24, nil)` from a truncation of
`blake2b.Sum512`. -/
def blake2b (outlen : Nat) (msg : List Nat) : List Nat :=
  let h0 := blakeIV.set 0 (blakeIV.getD 0 0 ^^^ (0x01010000 ^^^ outlen % 256))
  let nBlocks := (msg.length + 127) / 128
  let full := nBlocks - 1
  let h1 := (List.range full).foldl
    (fun h i => blakeCompress h (blakeWords ((msg.drop (128 * i)).take 128)) (128 * (i + 1)) false) h0
  let h2 := blakeCompress h1 (blakeWords ((msg.drop (128 * full)).take 128)) msg.length true
  ((h2.map (encodeLE 8)).flatten).take outlen

/-! ## Curve25519 (golang.org/x/crypto/curve25519, RFC 7748)

`box.GenerateKey` draws 32 random bytes as the private key and derives the
public key with `ScalarBaseMult`; `box.Seal` derives the shared secret with
`ScalarMult`.  Both clamp the private-key bytes before use. -/

/-- The field prime 2^255 - 19. -/
def p25519 : Nat := 2 ^ 255 - 19

/-- Modular exponentiation by repeated squaring over the (at most 256-bit)
exponent, used for the final field inversion of the ladder. -/
def powMod (b e m : Nat) : Nat :=
  ((List.range 256).foldl
    (fun st i => (if (e >>> i) % 2 = 1 then st.1 * st.2 % m else st.1, st.2 * st.2 % m))
    (1 % m, b % m)).1

/-- Private-key clamping: clear the low 3 bits of byte 0 and the top bit of
byte 31, set bit 254; the clamped bytes are the little-endian scalar. -/
def clampScalar (priv : List Nat) : Nat :=
  decodeLE (priv.mapIdx fun i b =>
    if i = 0 then b &&& 248 else if i = 31 then (b &&& 127) ||| 64 else b)

/-- One step of the Montgomery ladder (RFC 7748), with the conditional swap
folded in: state `(x2, z2, x3, z3, swap)`, bit index `t`. -/
def ladderStep (k x1 : Nat) : Nat × Nat × Nat × Nat × Nat → Nat → Nat × Nat × Nat × Nat × Nat
  | (x2p, z2p, x3p, z3p, swap), t =>
    let kt := (k >>> t) % 2
    let doSwap := (swap + kt) % 2
    let x2 := if doSwap = 1 then x3p else x2p
    let x3 := if doSwap = 1 then x2p else x3p
    let z2 := if doSwap = 1 then z3p else z2p
    let z3 := if doSwap = 1 then z2p else z3p
    let p := p25519
    let a := (x2 + z2) % p
    let aa := a * a % p
    let b := (x2 + p - z2 % p) % p
    let bb := b * b % p
    let e := (aa + p - bb) % p
    let c := (x3 + z3) % p
    let d := (x3 + p - z3 % p) % p
    let da := d * a % p
    let cb := c * b % p
    let x3n := (da + cb) % p * ((da + cb) % p) % p
    let z3n := (da + p - cb) % p * ((da + p - cb) % p) % p * x1 % p
    let x2n := aa * bb % p
    let z2n := e * ((aa + 121665 * e) % p) % p
    (x2n, z2n, x3n, z3n, kt)

/-- X25519 scalar multiplication: clamped scalar `k`, point (u-coordinate)
`u`, via 255 Montgomery ladder steps and a final conditional swap and
inversion. -/
def x25519 (k u : Nat) : Nat :=
  let x1 := u % p25519
  let st := ((List.range 255).reverse).foldl (ladderStep k x1) (1, 0, x1, 1, 0)
  let x2 := if st.2.2.2.2 = 1 then st.2.2.1 else st.1
  let z2 := if st.2.2.2.2 = 1 then st.2.2.2.1 else st.2.1
  x2 * powMod z2 (p25519 - 2) p25519 % p25519

/-- `curve25519.ScalarBaseMult`: multiply the clamped private key into the
base point 9. -/
def scalarBaseMult (priv : List Nat) : Nat :=
  x25519 (clampScalar priv) 9

/-- `curve25519.ScalarMult`: multiply the clamped private key into a peer
public key (little-endian u-coordinate, top bit masked per RFC 7748). -/
def scalarMult (priv point : List Nat) : Nat :=
  x25519 (clampScalar priv) (decodeLE point % 2 ^ 255)

/-! ## Salsa20 / HSalsa20 (golang.org/x/crypto/salsa20/salsa) -/

/-- The Salsa20 constants "expand 32-byte k". -/
def salsaC : List Nat := [0x61707865, 0x3320646e, 0x79622d32, 0x6b206574]

/-- The Salsa20 quarter-round on state positions `a b c d`. -/
def salsaQR (v : List Nat) (a b c d : Nat) : List Nat :=
  let vb := v.getD b 0 ^^^ rotl32 ((v.getD a 0 + v.getD d 0) % 2 ^ 32) 7
  let vc := v.getD c 0 ^^^ rotl32 ((vb + v.getD a 0) % 2 ^ 32) 9
  let vd := v.getD d 0 ^^^ rotl32 ((vc + vb) % 2 ^ 32) 13
  let va := v.getD a 0 ^^^ rotl32 ((vd + vc) % 2 ^ 32) 18
  (((v.set a va).set b vb).set c vc).set d vd

/-- One Salsa20 double round (column round then row round). -/
def salsaDoubleRound (v : List Nat) : List Nat :=
  let v := salsaQR v 0 4 8 12
  let v := salsaQR v 5 9 13 1
  let v := salsaQR v 10 14 2 6
  let v := salsaQR v 15 3 7 11
  let v := salsaQR v 0 1 2 3
  let v := salsaQR v 5 6 7 4
  let v := salsaQR v 10 11 8 9
  salsaQR v 15 12 13 14

/-- The 16-word Salsa20 input block for key `key` (32 bytes) and a 16-byte
nonce-and-counter block `n16`. -/
def salsaInput (key n16 : List Nat) : List Nat :=
  let kw := fun i => decodeLE ((key.drop (4 * i)).take 4)
  let nw := fun i => decodeLE ((n16.drop (4 * i)).take 4)
  [salsaC.getD 0 0, kw 0, kw 1, kw 2,
   kw 3, salsaC.getD 1 0, nw 0, nw 1,
   nw 2, nw 3, salsaC.getD 2 0, kw 4,
   kw 5, kw 6, kw 7, salsaC.getD 3 0]

/-- A 64-byte Salsa20 keystream block: 20 rounds plus the feed-forward
addition, serialised little-endian. -/
def salsaBlockFor (key n16 : List Nat) : List Nat :=
  let inp := salsaInput key n16
  let v := (List.range 10).foldl (fun v _ => salsaDoubleRound v) inp
  (((List.range 16).map fun i => encodeLE 4 ((v.getD i 0 + inp.getD i 0) % 2 ^ 32)).flatten)

/-- HSalsa20: 20 rounds without the feed-forward; words 0, 5, 10, 15, 6, 7,
8, 9 form the 32-byte output key. -/
def hsalsa20 (key input16 : List Nat) : List Nat :=
  let v := (List.range 10).foldl (fun v _ => salsaDoubleRound v) (salsaInput key input16)
  ([0, 5, 10, 15, 6, 7, 8, 9].map fun i => encodeLE 4 (v.getD i 0)).flatten

/-! ## Poly1305 (golang.org/x/crypto/poly1305) -/

/-- The Poly1305 one-time authenticator: 16-byte tag of `msg` under the
32-byte one-time key. -/
def poly1305 (msg key : List Nat) : List Nat :=
  let p := 2 ^ 130 - 5
  let r := decodeLE (key.take 16) &&& 0x0ffffffc0ffffffc0ffffffc0fffffff
  let s := decodeLE (key.drop 16)
  let nChunks := (msg.length + 15) / 16
  let acc := (List.range nChunks).foldl
    (fun acc i =>
      let chunk := (msg.drop (16 * i)).take 16
      (acc + decodeLE chunk + 2 ^ (8 * chunk.length)) * r % p)
    0
  encodeLE 16 ((acc + s) % 2 ^ 128)

/-! ## NaCl secretbox and box (golang.org/x/crypto/nacl) -/

/-- `secretbox.Seal` with `out = nil`: XSalsa20-encrypt `m` under `key` and
the 24-byte `nonce`, prepending the 16-byte Poly1305 tag.  The first 32
message bytes use the second half of keystream block 0 (whose first half is
the Poly1305 key); the remainder uses blocks from counter 1 on. -/
def secretboxSeal (key nonce m : List Nat) : List Nat :=
  let subKey := hsalsa20 key (nonce.take 16)
  let n8 := nonce.drop 16
  let block := fun j => salsaBlockFor subKey (n8 ++ encodeLE 8 j)
  let pad := fun i => if i < 32 then (block 0).getD (32 + i) 0
                      else (block (1 + (i - 32) / 64)).getD ((i - 32) % 64) 0
  let c := m.mapIdx fun i b => (b ^^^ pad i) % 256
  poly1305 c ((block 0).take 32) ++ c

/-- `box.Seal` with `out = nil`: precompute the shared key
(HSalsa20 of the Curve25519 shared point under a zero input block), then
`secretbox.Seal`. -/
def boxSeal (m nonce peersPublicKey privateKey : List Nat) : List Nat :=
  secretboxSeal (hsalsa20 (encodeLE 32 (scalarMult privateKey peersPublicKey)) (List.replicate 16 0))
    nonce m

/-! ## The sealed-box encryptor (internal/github/secrets.go) -/

/-- `box.GenerateKey` on an explicit 32-byte random draw: the draw is the
private key, the public key is its `ScalarBaseMult`. -/
def generateKey (priv : List Nat) : List Nat × List Nat :=
  (encodeLE 32 (scalarBaseMult priv), priv)

/-- Nonce derivation of `encryptSecret` (secrets.go lines 67–82): BLAKE2b
with native 24-byte output over `ephemeralPublicKey ++ recipientPublicKey`
(both are `[32]byte` values in the source). -/
def deriveNonce (ephemeralPK recipientPK : List Nat) : List Nat :=
  blake2b 24 (ephemeralPK ++ recipientPK)

/-- The body of `encryptSecret` after `box.GenerateKey` returned the
ephemeral pair `(ephPub, ephPriv)`: derive the nonce, `box.Seal` the
plaintext, and prepend the ephemeral public key. -/
def encryptSecretKP (ephPub ephPriv publicKey plaintext : List Nat) : List Nat :=
  ephPub ++ boxSeal plaintext (deriveNonce ephPub publicKey) publicKey ephPriv

/-- `encryptSecret` (secrets.go lines 60–94) with the ephemeral randomness
passed explicitly: generate the ephemeral key pair from the 32 drawn bytes,
then run the sealed-box construction. -/
def encryptSecret (ephPriv publicKey plaintext : List Nat) : List Nat :=
  let kp := generateKey ephPriv
  encryptSecretKP kp.1 kp.2 publicKey plaintext

/-! ## SetSecret key handling (internal/github/secrets.go lines 16–52)

After base64-decoding the repository public key, `SetSecret` does
`var publicKeyBytes [32]byte; copy(publicKeyBytes[:], keyBytes)` — no
length check — and calls `encryptSecret`.  `SetEnvironmentSecret`
(lines 144–186 of the client) does the same. -/

/-- The `copy` of the decoded key bytes into a zero-initialised `[32]byte`:
at most 32 bytes are copied, the rest stays zero. -/
def copyTo32 (bs : List Nat) : List Nat :=
  bs.take 32 ++ List.replicate (32 - bs.length) 0

/-- `SetSecret` from the point where the public key has been base64-decoded
to `decodedKey`, with the ephemeral randomness `ephPriv` explicit and the
final `CreateOrUpdateRepoSecret` API call out of scope: the decoded bytes
are copied into a `[32]byte` and encryption proceeds unconditionally (the
remaining Go error sources are `rand` failure, modelled away by the
explicit draw, and `blake2b.New(24, nil)`, which never fails). -/
def setSecretModel (ephPriv decodedKey secretValue : List Nat) :
    Except String (List Nat) :=
  Except.ok (encryptSecret ephPriv (copyTo32 decodedKey) secretValue)

/-! ## maskSecret (cmd/easygh/main.go lines 272–277)

Go strings are byte strings and `len`/slicing act on bytes, so the value is
modelled as its UTF-8 bytes; 42 is the byte of the ASCII asterisk. -/

/-- `maskSecret`: values of at most 4 bytes become "****"; longer values
keep their first two and last two bytes around "****". -/
def maskSecret (s : List Nat) : List Nat :=
  if s.length ≤ 4 then [42, 42, 42, 42]
  else s.take 2 ++ [42, 42, 42, 42] ++ s.drop (s.length - 2)

/-- The number of characters (Unicode code points) a UTF-8 byte string
encodes: the count of non-continuation bytes.  Used to state the
character-based specification reading of the masking policy. -/
def utf8CharCount (s : List Nat) : Nat :=
  (s.filter fun b => !(128 ≤ b && b < 192)).length

/-- UTF-8 bytes of an ASCII string literal (code points below 128 encode
as themselves). -/
def asciiBytes (s : String) : List Nat :=
  s.toList.map Char.toNat

/-! ## LoadConfig token resolution (internal/config, LoadConfig lines 17–39)

After YAML unmarshalling, `LoadConfig` runs
`if cfg.GitHub.Token == "" { cfg.GitHub.Token = os.Getenv(EnvTokenKey) }`.
`envValue` is what `os.Getenv("GH_TOKEN_WITH_ACTIONS_WRITE")` would return
(the empty string when unset); the boolean records whether `os.Getenv` was
called at all. -/

/-- Token resolution of `LoadConfig`: the configuration token, or the
environment variable when the configuration token is empty; the flag is
true iff the environment variable was read. -/
def resolveToken (cfgToken envValue : String) : String × Bool :=
  if cfgToken = "" then (envValue, true) else (cfgToken, false)

/-! ## Variable upsert (client, SetRepositoryVariable lines 210–227,
SetEnvironmentVariable lines 246–269)

`UpdateRepoVariable` is tried first; only if it fails is
`CreateRepoVariable` tried, and the error returned on double failure is
`handleGitHubError` applied to the create error.  The environment variant
first resolves the repository ID and returns that error directly if the
lookup fails.  The remote calls are modelled by success booleans. -/

/-- The remote calls a set-variable operation can issue. -/
inductive VarCall
  | getRepoId
  | update
  | create
deriving DecidableEq, Repr

/-- The origin of the error a set-variable operation returns. -/
inductive VarErr
  | fromRepoId
  | fromCreate
deriving DecidableEq, Repr

/-- `SetRepositoryVariable`: update, then create only if update failed;
the error on double failure wraps the create error. -/
def setRepositoryVariable (updateOk createOk : Bool) : List VarCall × Option VarErr :=
  if updateOk then ([VarCall.update], none)
  else if createOk then ([VarCall.update, VarCall.create], none)
  else ([VarCall.update, VarCall.create], some VarErr.fromCreate)

/-- `SetEnvironmentVariable`: resolve the repository ID (returning its
error directly on failure), then the same update-then-create upsert. -/
def setEnvironmentVariable (repoIdOk updateOk createOk : Bool) :
    List VarCall × Option VarErr :=
  if repoIdOk then
    let r := setRepositoryVariable updateOk createOk
    (VarCall.getRepoId :: r.1, r.2)
  else ([VarCall.getRepoId], some VarErr.fromRepoId)

/-! ## The batch dispatcher (cmd/easygh/main.go lines 92–270)

`processRepository` iterates four consecutive loops — repository secrets,
environment secrets (per environment), repository variables, environment
variables — checking `ctx.Err()` before each unit; a failing unit appends
its error and `continue`s.  `execute` runs one worker per repository,
appends the errors of each worker under a mutex when it returns, and calls
`cancel()` at that point if `continue_on_error` is false.  The model
serialises the workers: while no worker has failed the shared cancellation
flag is false, and a flag set before a worker starts makes every one of its
per-unit checks observe cancellation.  Remote calls are modelled by the
boolean oracle at the client interface. -/

/-- The four catalog sections. -/
inductive EKind
  | repoSecret
  | envSecret
  | repoVar
  | envVar
deriving DecidableEq, Repr

/-- One catalog unit: section, environment name (empty for repository
scope), name and value. -/
structure Entry where
  kind : EKind
  env : String
  name : String
  value : String
deriving DecidableEq, Repr

/-- The value catalog, section by section, in the deterministic iteration
order the model fixes for the Go maps. -/
structure Catalog where
  repositorySecrets : List (String × String)
  environmentSecrets : List (String × List (String × String))
  repositoryVariables : List (String × String)
  environmentVariables : List (String × List (String × String))

/-- The units of a catalog in processing order: repository secrets, then
environment secrets, then repository variables, then environment
variables. -/
def catEntries (c : Catalog) : List Entry :=
  (c.repositorySecrets.map fun p => ⟨EKind.repoSecret, "", p.1, p.2⟩)
  ++ (c.environmentSecrets.flatMap fun ev =>
        ev.2.map fun p => ⟨EKind.envSecret, ev.1, p.1, p.2⟩)
  ++ (c.repositoryVariables.map fun p => ⟨EKind.repoVar, "", p.1, p.2⟩)
  ++ (c.environmentVariables.flatMap fun ev =>
        ev.2.map fun p => ⟨EKind.envVar, ev.1, p.1, p.2⟩)

/-- Whether a section holds secrets (needing key fetch and encryption). -/
def isSecretKind : EKind → Bool
  | EKind.repoSecret => true
  | EKind.envSecret => true
  | _ => false

/-- The GitHub client at its interface boundary: per repository and unit,
whether the dry-run metadata probe finds the name, whether the public-key
fetch succeeds, and whether the create-or-update write succeeds. -/
structure ClientOracle where
  probeOk : String → Entry → Bool
  keyOk : String → Entry → Bool
  setOk : String → Entry → Bool

/-- The observable actions of a worker: remote calls (probe, key fetch,
create-or-update), `encryptSecret` invocations, and log lines (dry-run
preview, success, failure). -/
inductive Ev
  | probe (repo : String) (e : Entry) (found : Bool)
  | preview (repo : String) (e : Entry) (update : Bool)
  | keyFetch (repo : String) (e : Entry)
  | encrypt (repo : String) (e : Entry)
  | setCall (repo : String) (e : Entry)
  | successLog (repo : String) (e : Entry)
  | errorLog (repo : String) (e : Entry)
deriving DecidableEq, Repr

/-- One unit of `processRepository`: in dry-run, probe the existing
metadata and log exactly one preview line ("would update" when the probe
succeeded, "would create" otherwise), recording no error; otherwise issue
the write through the client (for secrets: key fetch, then encryption,
then the create-or-update call) and record an error iff it failed. -/
def procUnit (dryRun : Bool) (cl : ClientOracle) (repo : String) (e : Entry) :
    List Ev × List (String × Entry) :=
  if dryRun then
    ([Ev.probe repo e (cl.probeOk repo e), Ev.preview repo e (cl.probeOk repo e)], [])
  else if isSecretKind e.kind then
    if cl.keyOk repo e then
      if cl.setOk repo e then
        ([Ev.keyFetch repo e, Ev.encrypt repo e, Ev.setCall repo e, Ev.successLog repo e], [])
      else
        ([Ev.keyFetch repo e, Ev.encrypt repo e, Ev.setCall repo e, Ev.errorLog repo e],
         [(repo, e)])
    else ([Ev.keyFetch repo e, Ev.errorLog repo e], [(repo, e)])
  else
    if cl.setOk repo e then ([Ev.setCall repo e, Ev.successLog repo e], [])
    else ([Ev.setCall repo e, Ev.errorLog repo e], [(repo, e)])

/-- Whether a unit fails in non-dry-run mode. -/
def unitFails (cl : ClientOracle) (repo : String) (e : Entry) : Bool :=
  if isSecretKind e.kind then !cl.keyOk repo e || !cl.setOk repo e
  else !cl.setOk repo e

/-- The unit loop of `processRepository`: before each unit the worker
consults the cancellation signal (`cs i` is what `ctx.Err() != nil` returns
at the i-th check) and returns early when it is set; otherwise the unit
runs and the loop continues — also after a failing unit. -/
def procUnits (dryRun : Bool) (cl : ClientOracle) (repo : String)
    (cs : Nat → Bool) (i : Nat) : List Entry → List Ev × List (String × Entry)
  | [] => ([], [])
  | e :: rest =>
    if cs i then ([], [])
    else
      let u := procUnit dryRun cl repo e
      let r := procUnits dryRun cl repo cs (i + 1) rest
      (u.1 ++ r.1, u.2 ++ r.2)

/-- `processRepository`: the unit loop over the catalog in declaration
order. -/
def processRepository (dryRun : Bool) (cl : ClientOracle) (repo : String)
    (cs : Nat → Bool) (cat : Catalog) : List Ev × List (String × Entry) :=
  procUnits dryRun cl repo cs 0 (catEntries cat)

/-- The serialised worker pool of `execute`: the worker of each repository runs
with the cancellation flag as left by its predecessors; a worker that
returns errors sets the flag when `continue_on_error` is false. -/
def runRepos (dryRun coe : Bool) (cl : ClientOracle) (cat : Catalog)
    (flag : Bool) : List String → List (List Ev × List (String × Entry))
  | [] => []
  | r :: rest =>
    let out := processRepository dryRun cl r (fun _ => flag) cat
    out :: runRepos dryRun coe cl cat (flag || (!coe && !out.2.isEmpty)) rest

/-- `execute`: run the workers, aggregate the recorded errors of every worker,
and fail with "failed with N error(s)" iff the aggregate is non-empty. -/
def executeModel (dryRun coe : Bool) (cl : ClientOracle) (cat : Catalog)
    (repos : List String) :
    List (List Ev × List (String × Entry)) × Except String Unit :=
  let res := runRepos dryRun coe cl cat false repos
  let errs := (res.map Prod.snd).flatten
  (res,
   if errs.length > 0 then
     Except.error ("failed with " ++ toString errs.length ++ " error(s)")
   else Except.ok ())

/-- Whether an event is a dry-run preview line. -/
def isPreviewEv : Ev → Bool
  | Ev.preview _ _ _ => true
  | _ => false

/-- Whether an event is a dry-run metadata probe or a preview line (the
only actions a dry-run worker takes). -/
def isProbeOrPreview : Ev → Bool
  | Ev.probe _ _ _ => true
  | Ev.preview _ _ _ => true
  | _ => false

/-- Concrete two-secret catalog for the single-failure scenario. -/
def catC4 : Catalog := ⟨[("S1", "v1"), ("S2", "v2")], [], [], []⟩

/-- Concrete client behaviour for the single-failure scenario: every call
succeeds except the write of the unit named S1. -/
def clC4 : ClientOracle :=
  ⟨fun _ _ => true, fun _ _ => true, fun _ e => !(e.name == "S1")⟩

/-- Concrete one-secret catalog for the dry-run scenario. -/
def catC5 : Catalog := ⟨[("S", "v")], [], [], []⟩

/-- Concrete all-succeeding client behaviour. -/
def clC5 : ClientOracle := ⟨fun _ _ => true, fun _ _ => true, fun _ _ => true⟩

/-- Concrete one-secret catalog for the failing-run scenario. -/
def catC6 : Catalog := ⟨[("S", "v")], [], [], []⟩

/-- Concrete client behaviour whose writes always fail. -/
def clC6 : ClientOracle := ⟨fun _ _ => true, fun _ _ => true, fun _ _ => false⟩

end Gajin

namespace Gajin

/-! ## Helper lemmas -/

/-- An `encodeLE k` encoding has exactly `k` bytes. -/
theorem length_encodeLE (k n : Nat) : (encodeLE k n).length = k := by
  simp [encodeLE]

/-- Taking 32 bytes of a concatenation whose first part has 32 bytes
returns exactly that first part. -/
theorem take32_append (a b : List Nat) (h : a.length = 32) : (a ++ b).take 32 = a := by
  rw [← h]
  exact List.take_left a b

/-- A Poly1305 tag has 16 bytes. -/
theorem poly1305_length (msg key : List Nat) : (poly1305 msg key).length = 16 := by
  simp [poly1305, encodeLE]

/-- `secretbox.Seal` produces the 16-byte tag plus one ciphertext byte per
message byte. -/
theorem secretboxSeal_length (key nonce m : List Nat) :
    (secretboxSeal key nonce m).length = 16 + m.length := by
  simp [secretboxSeal, poly1305_length]

/-- `box.Seal` produces the 16-byte tag plus one ciphertext byte per
message byte. -/
theorem boxSeal_length (m nonce pk priv : List Nat) :
    (boxSeal m nonce pk priv).length = 16 + m.length := by
  simp [boxSeal, secretboxSeal_length]

/-! ## Nonce derivation (claim C1 context)

The nonce of `encryptSecret` is, by definition, BLAKE2b configured for a
native 24-byte digest over the 64-byte concatenation of the two public
keys; the repository test `TestNonceDerivation_Blake2b24` checks at the
fixed input `ephemeralPK[i] = i`, `recipientPK[i] = 32 + i` that this
digest differs from the first 24 bytes of the BLAKE2b-512 digest. -/

/-- The nonce is the native 24-byte BLAKE2b digest of
`ephemeralPublicKey ++ recipientPublicKey`. -/
theorem deriveNonce_is_native_blake2b24 (ephemeralPK recipientPK : List Nat) :
    deriveNonce ephemeralPK recipientPK = blake2b 24 (ephemeralPK ++ recipientPK) := rfl

/-- At the fixed key pair of the repository regression test, the native
24-byte digest differs from the truncated 64-byte digest. -/
theorem deriveNonce_testVector_ne_truncated512 :
    deriveNonce (List.range 32) ((List.range 32).map fun i => i + 32)
      ≠ (blake2b 64 (List.range 32 ++ (List.range 32).map fun i => i + 32)).take 24 := by
  decide

/-! ## Claim C2 -/

/-- Claim C2: for every plaintext (including the empty one) and every
32-byte recipient public key, `encryptSecret` returns
`32 + len(plaintext) + 16` bytes, and its first 32 bytes are the ephemeral
public key. -/
theorem encryptSecret_output_length (ephPriv publicKey plaintext : List Nat)
    (_hpk : publicKey.length = 32) :
    (encryptSecret ephPriv publicKey plaintext).length = 32 + plaintext.length + 16
    ∧ (encryptSecret ephPriv publicKey plaintext).take 32 = (generateKey ephPriv).1 := by
  constructor
  · simp only [encryptSecret, encryptSecretKP, generateKey, List.length_append,
      length_encodeLE, boxSeal_length]
    omega
  · simp only [encryptSecret, encryptSecretKP]
    exact take32_append _ _ (length_encodeLE 32 _)

/-- Witness for claim C2 at a concrete draw, key and plaintext. -/
theorem encryptSecret_output_length_witness :
    (List.replicate 32 0 : List Nat).length = 32
    ∧ (encryptSecret (List.range 32) (List.replicate 32 0) [1, 2, 3]).length
        = 32 + [1, 2, 3].length + 16 :=
  ⟨by decide,
   (encryptSecret_output_length (List.range 32) (List.replicate 32 0) [1, 2, 3] (by decide)).1⟩

/-! ## Claim C3 -/

/-- Claim C3 counterexample: a decoded recipient key of 31 bytes is not
rejected; `SetSecret` zero-pads it to 32 bytes and performs ephemeral key
generation, nonce derivation and encryption on the padded key. -/
theorem setSecret_short_key_not_rejected :
    (List.replicate 31 7 : List Nat).length ≠ 32
    ∧ setSecretModel (List.replicate 32 1) (List.replicate 31 7) [115, 51]
        = Except.ok (encryptSecret (List.replicate 32 1) (copyTo32 (List.replicate 31 7)) [115, 51]) :=
  ⟨by decide, rfl⟩

/-- Claim C3 amended: `SetSecret` performs no length check on the decoded
recipient key: for every decoded key it copies at most 32 bytes into a
zero-initialised 32-byte array and proceeds with all cryptographic
operations on that padded key, never failing at this stage. -/
theorem setSecret_pads_key_and_encrypts (ephPriv decodedKey secretValue : List Nat) :
    setSecretModel ephPriv decodedKey secretValue
      = Except.ok (encryptSecret ephPriv (copyTo32 decodedKey) secretValue)
    ∧ (copyTo32 decodedKey).length = 32 := by
  refine ⟨rfl, ?_⟩
  simp [copyTo32]
  omega

/-! ## Claim C7 -/

/-- Claim C7 counterexample: two distinct random draws — the all-zero bytes
and the same with byte 0 set to 1 — yield distinct ephemeral key pairs, yet
`encryptSecret` produces identical output for them, because Curve25519
clamping clears the low three bits of byte 0 of the private key. -/
theorem encryptSecret_equal_output_distinct_draws :
    generateKey (List.replicate 32 0) ≠ generateKey (1 :: List.replicate 31 0)
    ∧ encryptSecret (List.replicate 32 0) (List.replicate 32 2) [115, 51]
        = encryptSecret (1 :: List.replicate 31 0) (List.replicate 32 2) [115, 51] := by
  constructor
  · intro h
    have h2 : (List.replicate 32 0 : List Nat) = 1 :: List.replicate 31 0 :=
      congrArg Prod.snd h
    exact absurd h2 (by decide)
  · simp only [encryptSecret, generateKey, encryptSecretKP, boxSeal, scalarBaseMult, scalarMult]
    rw [show clampScalar (List.replicate 32 0) = clampScalar (1 :: List.replicate 31 0) from
      by decide]

/-- Claim C7 amended: two invocations of `encryptSecret` whose ephemeral
key pairs have distinct public keys produce distinct outputs; in
particular their first 32 bytes differ. -/
theorem encryptSecret_distinct_ephemeral_pubs (r1 r2 publicKey plaintext : List Nat)
    (hne : (generateKey r1).1 ≠ (generateKey r2).1) :
    (encryptSecret r1 publicKey plaintext).take 32
        ≠ (encryptSecret r2 publicKey plaintext).take 32
    ∧ encryptSecret r1 publicKey plaintext ≠ encryptSecret r2 publicKey plaintext := by
  have key : ∀ r : List Nat,
      (encryptSecret r publicKey plaintext).take 32 = (generateKey r).1 := by
    intro r
    simp only [encryptSecret, encryptSecretKP]
    exact take32_append _ _ (length_encodeLE 32 _)
  constructor
  · rw [key r1, key r2]
    exact hne
  · intro h
    apply hne
    have h2 := congrArg (List.take 32) h
    rwa [key r1, key r2] at h2

/-- Witness for the amended claim C7 at two concrete draws with distinct
ephemeral public keys. -/
theorem encryptSecret_distinct_ephemeral_pubs_witness :
    (generateKey (List.range 32)).1 ≠ (generateKey (List.replicate 32 5)).1
    ∧ encryptSecret (List.range 32) (List.replicate 32 2) [7]
        ≠ encryptSecret (List.replicate 32 5) (List.replicate 32 2) [7] :=
  ⟨by decide,
   (encryptSecret_distinct_ephemeral_pubs (List.range 32) (List.replicate 32 5)
     (List.replicate 32 2) [7] (by decide)).2⟩

/-! ## Claim C8 -/

/-- Claim C8 counterexample: when the repository-ID lookup fails,
`SetEnvironmentVariable` returns an error without ever attempting the
update call (or the create call), so the update-first and
error-iff-both-fail clauses do not hold unconditionally. -/
theorem setEnvironmentVariable_repoId_error_cex :
    setEnvironmentVariable false true true = ([VarCall.getRepoId], some VarErr.fromRepoId)
    ∧ VarCall.update ∉ (setEnvironmentVariable false true true).1
    ∧ (setEnvironmentVariable false true true).2 ≠ none := by
  decide

/-- Claim C8 amended: a set-variable operation attempts update first,
attempts create iff update failed, and errors iff both failed, the error
wrapping the create failure — unconditionally for repository scope, and
for environment scope once the repository-ID lookup succeeded; if that
lookup fails, the operation returns its error with no update or create
attempt. -/
theorem setVariable_upsert (u c : Bool) :
    (setRepositoryVariable u c).1.head? = some VarCall.update
    ∧ (VarCall.create ∈ (setRepositoryVariable u c).1 ↔ u = false)
    ∧ ((setRepositoryVariable u c).2 ≠ none ↔ (u = false ∧ c = false))
    ∧ ((setRepositoryVariable u c).2 ≠ none → (setRepositoryVariable u c).2 = some VarErr.fromCreate)
    ∧ setEnvironmentVariable true u c
        = (VarCall.getRepoId :: (setRepositoryVariable u c).1, (setRepositoryVariable u c).2)
    ∧ setEnvironmentVariable false u c = ([VarCall.getRepoId], some VarErr.fromRepoId) := by
  cases u <;> cases c <;> decide

/-- Witness for the amended claim C8 in the double-failure case. -/
theorem setVariable_upsert_witness :
    (setRepositoryVariable false false).2 ≠ none
    ∧ (setRepositoryVariable false false).2 = some VarErr.fromCreate
    ∧ VarCall.create ∈ (setRepositoryVariable false false).1 :=
  ⟨by decide, (setVariable_upsert false false).2.2.2.1 (by decide),
   ((setVariable_upsert false false).2.1).mpr rfl⟩

/-! ## Claim C9 -/

/-- Claim C9 counterexample: `maskSecret` operates on bytes, not
characters.  The UTF-8 value 0xE6 0x97 0xA5 0x61 0x61 encodes three
characters (one CJK character and two ASCII letters), so the claim
requires the full-mask token, but the function sees five bytes and returns
the first-two/last-two form, splitting the multi-byte character. -/
theorem maskSecret_characters_cex :
    utf8CharCount [0xE6, 0x97, 0xA5, 97, 97] ≤ 4
    ∧ maskSecret [0xE6, 0x97, 0xA5, 97, 97] ≠ asciiBytes "****" := by
  decide

/-- Claim C9 amended: with length measured in bytes and the first and last
two units taken as bytes (Go string indexing), `maskSecret` returns the
fixed token "****" for values of at most 4 bytes and otherwise the first
two bytes, "****", then the last two bytes; for ASCII values such as
"ABCDEFGH" (rendering as "AB****GH") bytes and characters coincide. -/
theorem maskSecret_bytes (s : List Nat) :
    (s.length ≤ 4 → maskSecret s = asciiBytes "****")
    ∧ (4 < s.length → maskSecret s = s.take 2 ++ asciiBytes "****" ++ s.drop (s.length - 2))
    ∧ maskSecret (asciiBytes "ABCDEFGH") = asciiBytes "AB****GH" := by
  have ha : asciiBytes "****" = [42, 42, 42, 42] := by decide
  refine ⟨fun h => ?_, fun h => ?_, by decide⟩
  · simp only [maskSecret]
    rw [if_pos h]
    exact ha.symm
  · simp only [maskSecret]
    rw [if_neg (by omega), ha]

/-- Witness for the amended claim C9 at the eight-byte ASCII value of the
specification example. -/
theorem maskSecret_bytes_witness :
    4 < (asciiBytes "ABCDEFGH").length
    ∧ maskSecret (asciiBytes "ABCDEFGH")
        = (asciiBytes "ABCDEFGH").take 2 ++ asciiBytes "****"
          ++ (asciiBytes "ABCDEFGH").drop ((asciiBytes "ABCDEFGH").length - 2) :=
  ⟨by decide, (maskSecret_bytes (asciiBytes "ABCDEFGH")).2.1 (by decide)⟩

/-! ## Claim C10 -/

/-- Claim C10: `LoadConfig` consults the `GH_TOKEN_WITH_ACTIONS_WRITE`
environment variable only when the configuration token is empty; when the
configuration token is set, it is used and the environment variable is
never read. -/
theorem loadConfig_token_precedence (cfgToken envValue : String) :
    (cfgToken ≠ "" → resolveToken cfgToken envValue = (cfgToken, false))
    ∧ (cfgToken = "" → resolveToken cfgToken envValue = (envValue, true)) := by
  constructor <;> intro h <;> simp [resolveToken, h]

/-- Witness for claim C10 with both the configuration token and the
environment variable set. -/
theorem loadConfig_token_precedence_witness :
    ("cfg-token" : String) ≠ ""
    ∧ resolveToken "cfg-token" "env-token" = ("cfg-token", false) :=
  ⟨by decide, (loadConfig_token_precedence "cfg-token" "env-token").1 (by decide)⟩

end Gajin

namespace Gajin

/-! ## Dispatcher lemmas -/

/-- The errors a non-dry-run unit records: its tagged entry iff it
failed. -/
theorem procUnit_snd (cl : ClientOracle) (r : String) (e : Entry) :
    (procUnit false cl r e).2 = if unitFails cl r e then [(r, e)] else [] := by
  by_cases h1 : isSecretKind e.kind = true <;>
    by_cases h2 : cl.keyOk r e = true <;>
      by_cases h3 : cl.setOk r e = true <;>
        simp [procUnit, unitFails, h1, h2, h3]

/-- A succeeding non-dry-run unit logs its success. -/
theorem procUnit_success (cl : ClientOracle) (r : String) (e : Entry)
    (hok : unitFails cl r e = false) :
    Ev.successLog r e ∈ (procUnit false cl r e).1 := by
  by_cases h1 : isSecretKind e.kind = true <;>
    by_cases h2 : cl.keyOk r e = true <;>
      by_cases h3 : cl.setOk r e = true <;>
        simp_all [procUnit, unitFails]

/-- A worker whose every cancellation check observes cancellation does
nothing. -/
theorem procUnits_cancelled (dr : Bool) (cl : ClientOracle) (r : String) (i : Nat)
    (es : List Entry) : procUnits dr cl r (fun _ => true) i es = ([], []) := by
  cases es <;> simp [procUnits]

/-- An uncancelled worker records exactly the failing units, tagged with
its repository, in catalog order. -/
theorem procUnits_nocancel_snd (cl : ClientOracle) (r : String) (es : List Entry) :
    ∀ i, (procUnits false cl r (fun _ => false) i es).2
      = (es.filter (unitFails cl r)).map fun e => (r, e) := by
  induction es with
  | nil => intro i; simp [procUnits]
  | cons e rest ih =>
    intro i
    simp only [procUnits, List.filter_cons]
    rw [if_neg (by simp)]
    cases h : unitFails cl r e <;> simp [procUnit_snd, h, ih (i + 1)]

/-- An uncancelled worker logs a success for every unit that does not
fail — including units after a failing one. -/
theorem procUnits_nocancel_success (cl : ClientOracle) (r : String) (es : List Entry) :
    ∀ (i : Nat), ∀ e ∈ es, unitFails cl r e = false →
      Ev.successLog r e ∈ (procUnits false cl r (fun _ => false) i es).1 := by
  induction es with
  | nil => intro i e he; simp at he
  | cons e2 rest ih =>
    intro i e he hok
    simp only [procUnits]
    rw [if_neg (by simp)]
    rcases List.mem_cons.mp he with rfl | hmem
    · exact List.mem_append_left _ (procUnit_success cl r e hok)
    · exact List.mem_append_right _ (ih (i + 1) e hmem hok)

/-- A dry-run unit probes and previews, recording nothing. -/
theorem procUnit_dry (cl : ClientOracle) (r : String) (e : Entry) :
    procUnit true cl r e
      = ([Ev.probe r e (cl.probeOk r e), Ev.preview r e (cl.probeOk r e)], []) := rfl

/-- An uncancelled dry-run worker emits one probe and one preview per
catalog unit and records no error. -/
theorem procUnits_dry (cl : ClientOracle) (r : String) (es : List Entry) :
    ∀ i, procUnits true cl r (fun _ => false) i es
      = (es.flatMap fun e => [Ev.probe r e (cl.probeOk r e), Ev.preview r e (cl.probeOk r e)],
         []) := by
  induction es with
  | nil => intro i; simp [procUnits]
  | cons e rest ih =>
    intro i
    simp only [procUnits]
    rw [if_neg (by simp)]
    simp [procUnit_dry, ih (i + 1)]

/-- Once the cancellation flag is set (continue_on_error false), every
later worker observes it at its first check and does nothing. -/
theorem runRepos_flag_true (dr : Bool) (cl : ClientOracle) (cat : Catalog)
    (rs : List String) :
    runRepos dr false cl cat true rs
      = rs.map fun _ => (([] : List Ev), ([] : List (String × Entry))) := by
  induction rs with
  | nil => simp [runRepos]
  | cons r rest ih => simp [runRepos, processRepository, procUnits_cancelled, ih]

/-- In dry-run mode no worker records an error, so the cancellation flag
never gets set and every repository is processed in full. -/
theorem runRepos_dry (coe : Bool) (cl : ClientOracle) (cat : Catalog)
    (rs : List String) :
    runRepos true coe cl cat false rs
      = rs.map fun r => processRepository true cl r (fun _ => false) cat := by
  induction rs with
  | nil => simp [runRepos]
  | cons r rest ih =>
    simp [runRepos, processRepository, procUnits_dry, ih]

/-- The probe-and-preview stream of a dry-run worker consists only of
probes and previews and holds exactly one preview per unit. -/
theorem dry_events_props (cl : ClientOracle) (r : String) (es : List Entry) :
    (∀ ev ∈ es.flatMap fun e =>
        [Ev.probe r e (cl.probeOk r e), Ev.preview r e (cl.probeOk r e)],
      isProbeOrPreview ev = true)
    ∧ ((es.flatMap fun e =>
        [Ev.probe r e (cl.probeOk r e), Ev.preview r e (cl.probeOk r e)]).filter
          isPreviewEv).length = es.length := by
  induction es with
  | nil => simp
  | cons e rest ih =>
    refine ⟨?_, ?_⟩
    · intro ev hev
      rw [List.flatMap_cons] at hev
      rcases List.mem_append.mp hev with h | h
      · rcases List.mem_cons.mp h with rfl | h2
        · rfl
        · rcases List.mem_cons.mp h2 with rfl | h3
          · rfl
          · exact absurd h3 (List.not_mem_nil _)
      · exact ih.1 ev h
    · simp [List.filter_append, isPreviewEv, ih.2]

/-- Every member of a Nat list with sum zero is zero. -/
theorem natSum_zero_mem {l : List Nat} (h : l.sum = 0) {x : Nat} (hx : x ∈ l) : x = 0 := by
  induction l with
  | nil => simp at hx
  | cons a t ih =>
    rw [List.sum_cons] at h
    rcases List.mem_cons.mp hx with rfl | hm
    · omega
    · exact ih (by omega) hm

/-- An element found by index lookup is a member. -/
theorem mem_of_get_eq_some {α : Type} {l : List α} {n : Nat} {a : α}
    (h : l.get? n = some a) : a ∈ l := by
  induction l generalizing n with
  | nil => simp [List.get?] at h
  | cons b t ih =>
    cases n with
    | zero =>
      simp only [List.get?] at h
      injection h with h2
      exact h2 ▸ List.mem_cons_self b t
    | succ m =>
      simp only [List.get?] at h
      exact List.mem_cons_of_mem b (ih h)

/-! ## Claim C4 -/

/-- Claim C4 counterexample: one target, two repository secrets, the write
of the first fails, continue_on_error false.  The aggregate holds exactly
one error, but the worker continues past the failing unit and logs a
success for the following unit — the cancellation is requested only after
the worker returns, so successes after the failing unit are reported,
refuting the no-success-after-failure clause. -/
theorem processRepository_success_after_failure_cex :
    (((executeModel false false clC4 catC4 ["r1"]).1.map Prod.snd).flatten).length = 1
    ∧ (executeModel false false clC4 catC4 ["r1"]).1
        = [([Ev.keyFetch "r1" ⟨EKind.repoSecret, "", "S1", "v1"⟩,
             Ev.encrypt "r1" ⟨EKind.repoSecret, "", "S1", "v1"⟩,
             Ev.setCall "r1" ⟨EKind.repoSecret, "", "S1", "v1"⟩,
             Ev.errorLog "r1" ⟨EKind.repoSecret, "", "S1", "v1"⟩,
             Ev.keyFetch "r1" ⟨EKind.repoSecret, "", "S2", "v2"⟩,
             Ev.encrypt "r1" ⟨EKind.repoSecret, "", "S2", "v2"⟩,
             Ev.setCall "r1" ⟨EKind.repoSecret, "", "S2", "v2"⟩,
             Ev.successLog "r1" ⟨EKind.repoSecret, "", "S2", "v2"⟩],
            [("r1", ⟨EKind.repoSecret, "", "S1", "v1"⟩)])] := by
  decide

/-- Claim C4 amended: with exactly one failing unit across all targets and
continue_on_error false, the aggregated result holds exactly one error;
the target owning the failing unit is processed in full (its worker
observes no cancellation, since cancellation is requested only after a
worker returns), and an uncancelled worker logs a success for every
non-failing unit — including the units after the failing one; workers
started after the flag is set do nothing. -/
theorem execute_single_failure (cl : ClientOracle) (cat : Catalog) (repos : List String)
    (hone : (repos.map fun r => ((catEntries cat).filter (unitFails cl r)).length).sum = 1) :
    ((executeModel false false cl cat repos).1.map Prod.snd).flatten.length = 1
    ∧ (∀ i r, repos.get? i = some r →
        ((catEntries cat).filter (unitFails cl r)).length = 1 →
        (executeModel false false cl cat repos).1.get? i
          = some (processRepository false cl r (fun _ => false) cat))
    ∧ (∀ r, ∀ e ∈ catEntries cat, unitFails cl r e = false →
        Ev.successLog r e ∈ (processRepository false cl r (fun _ => false) cat).1) := by
  have main : ∀ (rs : List String),
      (rs.map fun r => ((catEntries cat).filter (unitFails cl r)).length).sum = 1 →
      ((runRepos false false cl cat false rs).map Prod.snd).flatten.length = 1
      ∧ ∀ i r, rs.get? i = some r →
          ((catEntries cat).filter (unitFails cl r)).length = 1 →
          (runRepos false false cl cat false rs).get? i
            = some (processRepository false cl r (fun _ => false) cat) := by
    intro rs
    induction rs with
    | nil => intro h; simp at h
    | cons r rest ih =>
      intro h
      rw [List.map_cons, List.sum_cons] at h
      have hsnd : (processRepository false cl r (fun _ => false) cat).2
          = ((catEntries cat).filter (unitFails cl r)).map fun e => (r, e) :=
        procUnits_nocancel_snd cl r (catEntries cat) 0
      by_cases hk : ((catEntries cat).filter (unitFails cl r)).length = 0
      · have hnil : (catEntries cat).filter (unitFails cl r) = [] :=
          List.length_eq_zero.mp hk
        have hsnd2 : (processRepository false cl r (fun _ => false) cat).2 = [] := by
          rw [hsnd, hnil]; rfl
        have hrest : (rest.map fun r =>
            ((catEntries cat).filter (unitFails cl r)).length).sum = 1 := by omega
        have ihr := ih hrest
        have hrun : runRepos false false cl cat false (r :: rest)
            = processRepository false cl r (fun _ => false) cat
                :: runRepos false false cl cat false rest := by
          simp [runRepos, hsnd2]
        rw [hrun]
        constructor
        · simp [hsnd2, ihr.1]
        · intro i r2 hi hflen
          cases i with
          | zero =>
            simp only [List.get?] at hi
            injection hi with hi2
            subst hi2
            omega
          | succ n =>
            simp only [List.get?] at hi ⊢
            exact ihr.2 n r2 hi hflen
      · have hk1 : ((catEntries cat).filter (unitFails cl r)).length = 1 := by omega
        have hrest0 : (rest.map fun r =>
            ((catEntries cat).filter (unitFails cl r)).length).sum = 0 := by omega
        have hsndlen : (processRepository false cl r (fun _ => false) cat).2.length = 1 := by
          rw [hsnd]; simp [hk1]
        have hne : (processRepository false cl r (fun _ => false) cat).2.isEmpty = false := by
          rcases hcase : (processRepository false cl r (fun _ => false) cat).2 with _ | ⟨a, t⟩
          · rw [hcase] at hsndlen; simp at hsndlen
          · rfl
        have hrun : runRepos false false cl cat false (r :: rest)
            = processRepository false cl r (fun _ => false) cat
                :: runRepos false false cl cat true rest := by
          simp [runRepos, hne]
        rw [hrun, runRepos_flag_true]
        have hzero : ∀ (l : List String),
            ((l.map fun _ => (([] : List Ev), ([] : List (String × Entry)))).map
              Prod.snd).flatten = [] := by
          intro l
          induction l with
          | nil => rfl
          | cons a t iht => simp [iht]
        constructor
        · simp [hsndlen, hzero]
        · intro i r2 hi hflen
          cases i with
          | zero =>
            simp only [List.get?] at hi ⊢
            injection hi with hi2
            subst hi2
            rfl
          | succ n =>
            simp only [List.get?] at hi
            have hmem : r2 ∈ rest := mem_of_get_eq_some hi
            have h0 : ((catEntries cat).filter (unitFails cl r2)).length = 0 := by
              have hin : ((catEntries cat).filter (unitFails cl r2)).length ∈
                  rest.map fun r => ((catEntries cat).filter (unitFails cl r)).length :=
                List.mem_map_of_mem _ hmem
              exact natSum_zero_mem hrest0 hin
            omega
  obtain ⟨m1, m2⟩ := main repos hone
  exact ⟨m1, m2, fun r e he hok => procUnits_nocancel_success cl r (catEntries cat) 0 e he hok⟩

/-- Witness for the amended claim C4 at the concrete single-failure
scenario. -/
theorem execute_single_failure_witness :
    ((["r1"].map fun r => ((catEntries catC4).filter (unitFails clC4 r)).length).sum = 1)
    ∧ ((executeModel false false clC4 catC4 ["r1"]).1.map Prod.snd).flatten.length = 1 :=
  ⟨by decide, (execute_single_failure clC4 catC4 ["r1"] (by decide)).1⟩

/-! ## Claim C5 -/

/-- Claim C5: in dry-run mode every target gets a result; no worker
records an error; every emitted action is an existence/metadata probe or a
preview line (so there are zero create-or-update calls and zero
`encryptSecret` invocations); and each target emits exactly one preview
line per catalog entry. -/
theorem dryRun_only_probes_and_previews (coe : Bool) (cl : ClientOracle) (cat : Catalog)
    (repos : List String) :
    (executeModel true coe cl cat repos).1.length = repos.length
    ∧ ∀ out ∈ (executeModel true coe cl cat repos).1,
        out.2 = []
        ∧ (∀ ev ∈ out.1, isProbeOrPreview ev = true)
        ∧ (out.1.filter isPreviewEv).length = (catEntries cat).length := by
  have hrun : (executeModel true coe cl cat repos).1
      = repos.map fun r => processRepository true cl r (fun _ => false) cat :=
    runRepos_dry coe cl cat repos
  constructor
  · rw [hrun]
    exact List.length_map _ _
  · intro out hout
    rw [hrun] at hout
    obtain ⟨r, _, rfl⟩ := List.mem_map.mp hout
    have hpr : processRepository true cl r (fun _ => false) cat
        = ((catEntries cat).flatMap fun e =>
            [Ev.probe r e (cl.probeOk r e), Ev.preview r e (cl.probeOk r e)], []) :=
      procUnits_dry cl r (catEntries cat) 0
    rw [hpr]
    exact ⟨rfl, (dry_events_props cl r (catEntries cat)).1,
      (dry_events_props cl r (catEntries cat)).2⟩

/-- Witness for claim C5 at a concrete dry run. -/
theorem dryRun_only_probes_and_previews_witness :
    (executeModel true false clC5 catC5 ["r"]).1.length = ["r"].length
    ∧ ((executeModel true false clC5 catC5 ["r"]).1.getD 0 ([], [])).2 = [] :=
  ⟨(dryRun_only_probes_and_previews false clC5 catC5 ["r"]).1,
   ((dryRun_only_probes_and_previews false clC5 catC5 ["r"]).2
     ((executeModel true false clC5 catC5 ["r"]).1.getD 0 ([], [])) (by decide)).1⟩

/-- The run result of `execute` is, by definition, the failure message on
a non-empty aggregate and success otherwise. -/
theorem executeModel_snd (dr coe : Bool) (cl : ClientOracle) (cat : Catalog)
    (repos : List String) :
    (executeModel dr coe cl cat repos).2
      = if (((executeModel dr coe cl cat repos).1.map Prod.snd).flatten).length > 0 then
          Except.error ("failed with "
            ++ toString (((executeModel dr coe cl cat repos).1.map Prod.snd).flatten).length
            ++ " error(s)")
        else Except.ok () := rfl

/-! ## Claim C6 -/

/-- Claim C6: `execute` returns success iff the aggregated error set is
empty, and on failure the returned message is "failed with N error(s)"
with N the number of recorded unit errors, regardless of how many other
units succeeded. -/
theorem execute_failure_iff (dr coe : Bool) (cl : ClientOracle) (cat : Catalog)
    (repos : List String) :
    ((executeModel dr coe cl cat repos).2 = Except.ok ()
      ↔ ((executeModel dr coe cl cat repos).1.map Prod.snd).flatten = [])
    ∧ (((executeModel dr coe cl cat repos).1.map Prod.snd).flatten ≠ [] →
        (executeModel dr coe cl cat repos).2
          = Except.error ("failed with "
              ++ toString (((executeModel dr coe cl cat repos).1.map Prod.snd).flatten).length
              ++ " error(s)")) := by
  rw [executeModel_snd]
  by_cases h : ((executeModel dr coe cl cat repos).1.map Prod.snd).flatten = []
  · rw [h]
    simp
  · have hlen : 0 < (((executeModel dr coe cl cat repos).1.map Prod.snd).flatten).length :=
      List.length_pos.mpr h
    rw [if_pos hlen]
    exact ⟨⟨fun hc => absurd hc (by simp), fun hnil => absurd hnil h⟩, fun _ => rfl⟩

/-- Witness for claim C6 at a concrete run with one failing write. -/
theorem execute_failure_iff_witness :
    ((executeModel false false clC6 catC6 ["r"]).1.map Prod.snd).flatten ≠ []
    ∧ (executeModel false false clC6 catC6 ["r"]).2
        = Except.error "failed with 1 error(s)" := by
  have h := (execute_failure_iff false false clC6 catC6 ["r"]).2 (by decide)
  refine ⟨by decide, ?_⟩
  rw [h]
  exact congrArg Except.error (by decide)

end Gajin
